import Mathlib

/-!
Verification of the softmax-regression / adaboost exponential-loss components
of this mlpack snapshot, as a shallow embedding in Lean 4.

Vectors are `List ℝ`; dense matrices are `List (List ℝ)`.  An armadillo
column-vector's entries become the list entries in order; a parameter matrix
(numClasses × effectiveFeatureDim) is represented by its list of rows, and a
dataset (featureDim × numSamples) by its list of sample columns.
-/

namespace Mlpack

/-- `arma::max` of a vector: the (signed) maximum entry.  Only meaningful on
nonempty vectors; we return 0 on `[]` — armadillo rejects an empty max, an
error path modelled separately by `ExponentialLoss.armaMax`. -/
noncomputable def listMax : List ℝ → ℝ
  | [] => 0
  | [x] => x
  | x :: y :: xs => max x (listMax (y :: xs))

namespace ExponentialLoss

/-- The denominator actually used by `ExponentialLoss::Calculate`:
`max_error = arma::max(error_vec)`, replaced by `1` when it equals `0`
(the `if(max_error == 0) max_error = 1;` line of the source). -/
noncomputable def max_error (error_vec : List ℝ) : ℝ :=
  if listMax error_vec = 0 then 1 else listMax error_vec

/-- `ExponentialLoss::Calculate` from
`src/mlpack/methods/adaboost/loss_functions/exponential.hpp`:
`loss = 1 - arma::exp(-(arma::abs(error_vec)) / max_error)`, elementwise. -/
noncomputable def Calculate (error_vec : List ℝ) : List ℝ :=
  error_vec.map (fun e => 1 - Real.exp (-|e| / max_error error_vec))

/-- `arma::max` with armadillo's runtime emptiness check made explicit:
`arma::max` rejects an empty vector (it throws "max(): object has no
elements"), so the empty case is an error (`none`); otherwise the signed
maximum entry. -/
noncomputable def armaMax : List ℝ → Option ℝ
  | [] => none
  | x :: xs => some (listMax (x :: xs))

/-- `ExponentialLoss::Calculate` with the `arma::max` emptiness check made
explicit: the call errors (`none`) on an empty error vector — the
`arma::max(error_vec)` line throws there — and otherwise performs the `0 → 1`
substitution and returns the elementwise loss vector. -/
noncomputable def CalculateChecked (error_vec : List ℝ) : Option (List ℝ) :=
  match armaMax error_vec with
  | none => none
  | some m0 =>
      some (error_vec.map (fun e =>
        1 - Real.exp (-|e| / (if m0 = 0 then 1 else m0))))

end ExponentialLoss

/-- The spec's description of the i-th loss entry (claim side, for comparison
with the source-translated `ExponentialLoss.Calculate`): `1 - exp(-|e_i| / m)`
where `m` is the signed maximum entry of `e`, replaced by `1` when the maximum
entry equals `0`. -/
noncomputable def specLossEntry (e : List ℝ) (i : Nat) : ℝ :=
  1 - Real.exp (-|e.getD i 0| / (if listMax e = 0 then 1 else listMax e))

/-- The state of a `SoftmaxRegression<MatType>` object
(`softmax_regression.hpp`): the parameter matrix (list of its `numClasses`
rows, each of length `effectiveFeatureDim`), `inputSize`, `numClasses`, the
L2 constant `lambda`, and the intercept flag. -/
structure SoftmaxRegression where
  parameters : List (List ℝ)
  inputSize : Nat
  numClasses : Nat
  lambda : ℝ
  fitIntercept : Bool

/-- `2^64`: the modulus of `size_t` arithmetic (64-bit target). -/
def SIZE_T : Nat := 2 ^ 64

/-- `parameters.n_cols`: the number of columns of the (row-list) parameter
matrix; `0` for the empty (never-allocated) matrix. -/
def nCols (p : List (List ℝ)) : Nat := (p.headD []).length

/-- `SoftmaxRegression::FeatureSize()`:
`fitIntercept ? parameters.n_cols - 1 : parameters.n_cols`, with the
subtraction performed in unsigned `size_t` arithmetic (mod `2^64`). -/
def FeatureSize (m : SoftmaxRegression) : Nat :=
  if m.fitIntercept then (nCols m.parameters % SIZE_T + (SIZE_T - 1)) % SIZE_T
  else nCols m.parameters % SIZE_T

/-- Assignment through the mutable accessor `size_t& NumClasses()`: writes the
`numClasses` field through the returned reference. -/
def setNumClasses (m : SoftmaxRegression) (v : Nat) : SoftmaxRegression :=
  { m with numClasses := v }

/-- Assignment through the mutable accessor `double& Lambda()`: writes the
`lambda` field through the returned reference. -/
def setLambda (m : SoftmaxRegression) (v : ℝ) : SoftmaxRegression :=
  { m with lambda := v }

/-- Dot product of two equal-length real vectors. -/
def dot (r x : List ℝ) : ℝ := (List.zipWith (fun a b => a * b) r x).sum

/-- Feature vector augmented with a trailing `1` when the intercept is fit
(spec §4.1/§4.2). -/
def augment (m : SoftmaxRegression) (x : List ℝ) : List ℝ :=
  if m.fitIntercept then x ++ [1] else x

/-- Modelled from the spec: the score column `z = W x` for one sample
(`x` augmented with `1` if the intercept is fit) — the bodies of the
`Classify` overloads live in `softmax_regression_impl.hpp`, which is not among
the sources; only the declarations are. -/
def scores (m : SoftmaxRegression) (x : List ℝ) : List ℝ :=
  m.parameters.map (fun r => dot r (augment m x))

/-- Index search used by arg-max: `i` is the index of the head of the
remaining list, `bi`/`bv` the best index and value so far; only a strictly
greater value replaces the best, so the first (lowest) index achieving the
maximum wins. -/
noncomputable def argmaxAux (i bi : Nat) (bv : ℝ) : List ℝ → Nat
  | [] => bi
  | x :: xs =>
    if bv < x then argmaxAux (i + 1) i x xs else argmaxAux (i + 1) bi bv xs

/-- First index achieving the maximum of a list (lowest index wins ties);
`0` on the empty list. -/
noncomputable def argmaxFirst : List ℝ → Nat
  | [] => 0
  | x :: xs => argmaxAux 1 0 x xs

/-- Modelled from the spec: the numerically stabilized softmax of one score
column — subtract the column max, exponentiate, divide by the sum
(spec §4.2, same max-subtraction stabilization as the objective). -/
noncomputable def softmaxCol (z : List ℝ) : List ℝ :=
  let M := listMax z
  let es := z.map (fun t => Real.exp (t - M))
  es.map (fun v => v / es.sum)

/-- Modelled from the spec: the labels-only overload
`Classify(dataset, labels)` — per sample, the arg-max (first index wins) of
the raw score column; the implementation file is not among the sources. -/
noncomputable def ClassifyLabels (m : SoftmaxRegression)
    (dataset : List (List ℝ)) : List Nat :=
  dataset.map (fun x => argmaxFirst (scores m x))

/-- Modelled from the spec: the probability-producing overload
`Classify(dataset, probabilities)` — the full softmax probability matrix, one
column (here: one inner list) per sample, column-normalized to sum to 1; the
implementation file is not among the sources. -/
noncomputable def ClassifyProbabilities (m : SoftmaxRegression)
    (dataset : List (List ℝ)) : List (List ℝ) :=
  dataset.map (fun x => softmaxCol (scores m x))

/-- The reportable error class of `Train` preconditions (spec §7). -/
inductive TrainError
  | invalidInput

/-- Modelled from the spec: `SoftmaxRegression::Train(data, labels,
numClasses, optimizer)` — the implementation file is not among the sources.
Checks `data.columns == labels.length` and every label `< numClasses`;
a violation fails with InvalidInput and leaves the model untouched; otherwise
the optimizer is run and its final point stored, its final objective value
returned.  `data` is the list of sample columns. -/
noncomputable def Train (m : SoftmaxRegression) (data : List (List ℝ))
    (labels : List Nat) (numClasses : Nat)
    (optimizer : List (List ℝ) → List (List ℝ) × ℝ) :
    Except TrainError ℝ × SoftmaxRegression :=
  if data.length ≠ labels.length then
    (Except.error TrainError.invalidInput, m)
  else if labels.any (fun l => decide (numClasses ≤ l)) then
    (Except.error TrainError.invalidInput, m)
  else
    let r := optimizer m.parameters
    (Except.ok r.2, { m with parameters := r.1, numClasses := numClasses })

/-- A trivial optimizer (identity on the initial point) for concrete
witnesses. -/
def trivOpt : List (List ℝ) → List (List ℝ) × ℝ := fun p => (p, 0)

/-- A concrete untrained instance with `fitIntercept = true` and an empty
(0 × 0) parameter matrix. -/
def mEmptyIntercept : SoftmaxRegression :=
  { parameters := [], inputSize := 0, numClasses := 0, lambda := 0,
    fitIntercept := true }

/-- A concrete two-class, one-feature instance without intercept. -/
def mTwoClass : SoftmaxRegression :=
  { parameters := [[1], [2]], inputSize := 1, numClasses := 2, lambda := 0,
    fitIntercept := false }

/-- A concrete two-class instance with intercept and a 2-column parameter
matrix. -/
def mTwoIntercept : SoftmaxRegression :=
  { parameters := [[1, 2], [3, 4]], inputSize := 1, numClasses := 2,
    lambda := 0, fitIntercept := true }

end Mlpack

namespace Mlpack

/-- Helper: `getD` through a `map`, inside the length. -/
theorem getD_map {α β : Type} (f : α → β) (l : List α) (i : Nat)
    (h : i < l.length) (d : α) (d' : β) :
    (l.map f).getD i d' = f (l.getD i d) := by
  induction l generalizing i with
  | nil => simp at h
  | cons a l ih =>
    cases i with
    | zero => simp
    | succ j =>
      simp only [List.map_cons, List.getD_cons_succ]
      exact ih j (by simpa using h)

/-- Helper: `getD` at an in-range index is a member of the list. -/
theorem getD_mem {α : Type} (l : List α) (i : Nat) (d : α) (h : i < l.length) :
    l.getD i d ∈ l := by
  induction l generalizing i with
  | nil => simp at h
  | cons a l ih =>
    cases i with
    | zero => simp
    | succ j =>
      simp only [List.getD_cons_succ]
      exact List.mem_cons_of_mem a (ih j (by simpa using h))

/-- Every entry of a list is at most its `listMax`. -/
theorem le_listMax {x : ℝ} {l : List ℝ} (hx : x ∈ l) : x ≤ listMax l := by
  induction l with
  | nil => simp at hx
  | cons a l ih =>
    cases l with
    | nil =>
      simp at hx
      simp [listMax, hx]
    | cons b t =>
      rcases List.mem_cons.mp hx with h | h
      · subst h; exact le_max_left _ _
      · exact le_trans (ih h) (le_max_right _ _)

/-- C1: for every error vector `e` and every index `i < e.length`, the i-th
entry of `ExponentialLoss::Calculate e` is `1 - exp(-|e_i| / m)`, where `m` is
the signed maximum entry of `e` (not the maximum absolute value), replaced by
`1` when that maximum equals `0`. -/
theorem calculate_entry_eq_spec (e : List ℝ) (i : Nat) (h : i < e.length) :
    (ExponentialLoss.Calculate e).getD i 0 = specLossEntry e i := by
  unfold ExponentialLoss.Calculate specLossEntry ExponentialLoss.max_error
  rw [getD_map _ _ _ h 0]

/-- Witness for C1 at the concrete input `e = [1, 2]`, `i = 0`. -/
theorem calculate_entry_eq_spec_witness :
    0 < ([1, 2] : List ℝ).length ∧
      (ExponentialLoss.Calculate [1, 2]).getD 0 0 = specLossEntry [1, 2] 0 :=
  ⟨by simp, calculate_entry_eq_spec [1, 2] 0 (by simp)⟩

/-- C6 counterexample: at the explicit input `[]` the call to
`ExponentialLoss::Calculate` does not succeed: `arma::max(error_vec)` rejects
an empty vector, so the call errors before the substitution is reached —
`Calculate` is not total on every finite input vector. -/
theorem calculate_empty_cex :
    ExponentialLoss.CalculateChecked ([] : List ℝ) = none := rfl

/-- C6 (amended): `ExponentialLoss::Calculate` is total on every nonempty
finite input vector: the call succeeds, and the substituted denominator is
never `0` (when the maximum entry is `0` it is replaced by `1`), so the
division is always well-defined; on the empty vector the `arma::max` call
errors instead. -/
theorem calculate_total_nonempty (e : List ℝ) (he : e ≠ []) :
    ExponentialLoss.CalculateChecked e = some (ExponentialLoss.Calculate e) ∧
      ExponentialLoss.max_error e ≠ 0 := by
  constructor
  · cases e with
    | nil => exact absurd rfl he
    | cons x xs =>
      simp [ExponentialLoss.CalculateChecked, ExponentialLoss.armaMax,
        ExponentialLoss.Calculate, ExponentialLoss.max_error]
  · unfold ExponentialLoss.max_error
    by_cases h : listMax e = 0
    · simp [h]
    · simp [h]

/-- Witness for C6 at the concrete nonempty input `[0]`, which also takes the
`0 → 1` substitution branch. -/
theorem calculate_total_nonempty_witness :
    ([0] : List ℝ) ≠ [] ∧
      (ExponentialLoss.CalculateChecked [0] =
          some (ExponentialLoss.Calculate [0]) ∧
        ExponentialLoss.max_error [0] ≠ 0) :=
  ⟨by simp, calculate_total_nonempty [0] (by simp)⟩

/-- C7: `ExponentialLoss::Calculate` applied to the all-zero vector
`[0, 0, 0]` returns `[0, 0, 0]`. -/
theorem calculate_zero_vec :
    ExponentialLoss.Calculate [0, 0, 0] = [0, 0, 0] := by
  have hmax : listMax [(0 : ℝ), 0, 0] = 0 := by
    simp [listMax]
  simp [ExponentialLoss.Calculate, ExponentialLoss.max_error, hmax,
    Real.exp_zero]

/-- C9: when the maximum entry of `e` is strictly negative (all entries
negative), `Calculate` divides by that negative maximum: every returned entry
equals `1 - exp(|e_i| / |m|)` and is strictly negative, so the output is not
confined to `[0, 1)`. -/
theorem calculate_neg_max (e : List ℝ) (hneg : listMax e < 0)
    (i : Nat) (h : i < e.length) :
    (ExponentialLoss.Calculate e).getD i 0 =
        1 - Real.exp (|e.getD i 0| / |listMax e|) ∧
      (ExponentialLoss.Calculate e).getD i 0 < 0 := by
  have hne : listMax e ≠ 0 := ne_of_lt hneg
  have hde : ExponentialLoss.max_error e = listMax e := by
    simp [ExponentialLoss.max_error, hne]
  have hxi : e.getD i 0 ∈ e := getD_mem e i 0 h
  have hxneg : e.getD i 0 < 0 := lt_of_le_of_lt (le_listMax hxi) hneg
  have habs : |e.getD i 0| > 0 := abs_pos.mpr (ne_of_lt hxneg)
  have harg : -|e.getD i 0| / listMax e = |e.getD i 0| / |listMax e| := by
    rw [abs_of_neg hneg, neg_div, div_neg]
  have hentry : (ExponentialLoss.Calculate e).getD i 0 =
      1 - Real.exp (|e.getD i 0| / |listMax e|) := by
    unfold ExponentialLoss.Calculate
    rw [getD_map _ _ _ h 0, hde, harg]
  refine ⟨hentry, ?_⟩
  rw [hentry]
  have hpos : 0 < |e.getD i 0| / |listMax e| :=
    div_pos habs (abs_pos.mpr hne)
  have hexp : 1 < Real.exp (|e.getD i 0| / |listMax e|) :=
    Real.one_lt_exp_iff.mpr hpos
  linarith

/-- Witness for C9 at `e = [-1, -2]`, `i = 0`. -/
theorem calculate_neg_max_witness :
    listMax [-1, -2] < 0 ∧ 0 < ([-1, -2] : List ℝ).length ∧
      ((ExponentialLoss.Calculate [-1, -2]).getD 0 0 =
          1 - Real.exp (|([-1, -2] : List ℝ).getD 0 0| / |listMax [-1, -2]|) ∧
        (ExponentialLoss.Calculate [-1, -2]).getD 0 0 < 0) := by
  have hneg : listMax [(-1 : ℝ), -2] < 0 := by
    norm_num [listMax]
  exact ⟨hneg, by simp, calculate_neg_max [-1, -2] hneg 0 (by simp)⟩

/-- C8: assignment through the mutable accessors `NumClasses()` and
`Lambda()` changes only the `numClasses` resp. `lambda` field; the stored
parameter matrix and the `fitIntercept` flag are unchanged by either
assignment (as is the other of the two fields). -/
theorem setters_frame (m : SoftmaxRegression) (v : Nat) (w : ℝ) :
    (setNumClasses m v).parameters = m.parameters ∧
      (setNumClasses m v).fitIntercept = m.fitIntercept ∧
      (setNumClasses m v).lambda = m.lambda ∧
      (setNumClasses m v).numClasses = v ∧
      (setLambda m w).parameters = m.parameters ∧
      (setLambda m w).fitIntercept = m.fitIntercept ∧
      (setLambda m w).numClasses = m.numClasses ∧
      (setLambda m w).lambda = w :=
  ⟨rfl, rfl, rfl, rfl, rfl, rfl, rfl, rfl⟩

/-- C10: when `fitIntercept` is true and the parameter matrix has zero
columns (untrained, never-allocated parameters), `FeatureSize()` computes
`0 - 1` in unsigned `size_t` arithmetic and returns `2^64 - 1` instead of
failing. -/
theorem featureSize_empty_wraps (m : SoftmaxRegression)
    (hfit : m.fitIntercept = true) (hcols : nCols m.parameters = 0) :
    FeatureSize m = 2 ^ 64 - 1 := by
  simp [FeatureSize, hfit, hcols, SIZE_T]

/-- Witness for C10 at the concrete untrained instance `mEmptyIntercept`. -/
theorem featureSize_empty_wraps_witness :
    mEmptyIntercept.fitIntercept = true ∧
      nCols mEmptyIntercept.parameters = 0 ∧
      FeatureSize mEmptyIntercept = 2 ^ 64 - 1 :=
  ⟨rfl, rfl, featureSize_empty_wraps mEmptyIntercept rfl rfl⟩

/-- C5 counterexample: at the concrete instance `mEmptyIntercept`
(`fitIntercept = true`, a 0-column parameter matrix), `FeatureSize()` does
not return the column count minus one (which is 0): it returns `2^64 - 1`. -/
theorem featureSize_minus_one_cex :
    FeatureSize mEmptyIntercept ≠ nCols mEmptyIntercept.parameters - 1 := by
  simp [FeatureSize, mEmptyIntercept, nCols, SIZE_T]

/-- C5 (amended): `FeatureSize()` returns the parameter column count minus 1
when `fitIntercept` is true and the matrix has at least one column, and
exactly the column count when `fitIntercept` is false (column counts being
`size_t` values, below `2^64`); with intercept and zero columns it instead
wraps around in `size_t` arithmetic. -/
theorem featureSize_spec (m : SoftmaxRegression)
    (hlt : nCols m.parameters < 2 ^ 64) :
    (m.fitIntercept = true → 1 ≤ nCols m.parameters →
        FeatureSize m = nCols m.parameters - 1) ∧
      (m.fitIntercept = false → FeatureSize m = nCols m.parameters) := by
  constructor
  · intro hfit hone
    simp only [FeatureSize, hfit, if_true, SIZE_T] at hlt ⊢
    omega
  · intro hfit
    simp only [FeatureSize, hfit, Bool.false_eq_true, if_false, SIZE_T] at hlt ⊢
    omega

/-- Witness for C5 at the concrete instances `mTwoIntercept` (intercept,
2 columns) and implicitly its no-intercept branch. -/
theorem featureSize_spec_witness :
    nCols mTwoIntercept.parameters < 2 ^ 64 ∧
      ((mTwoIntercept.fitIntercept = true → 1 ≤ nCols mTwoIntercept.parameters →
          FeatureSize mTwoIntercept = nCols mTwoIntercept.parameters - 1) ∧
        (mTwoIntercept.fitIntercept = false →
          FeatureSize mTwoIntercept = nCols mTwoIntercept.parameters)) :=
  ⟨by simp [mTwoIntercept, nCols],
    featureSize_spec mTwoIntercept (by simp [mTwoIntercept, nCols])⟩

/-- C2: when `data.columns != labels.length`, or some label is
`>= numClasses`, `Train` fails with InvalidInput and the model — in
particular its stored parameter matrix — is exactly what it was before the
call; no partial state is written. -/
theorem train_invalid_input (m : SoftmaxRegression) (data : List (List ℝ))
    (labels : List Nat) (nc : Nat)
    (opt : List (List ℝ) → List (List ℝ) × ℝ)
    (h : data.length ≠ labels.length ∨ ∃ l ∈ labels, nc ≤ l) :
    (Train m data labels nc opt).1 = Except.error TrainError.invalidInput ∧
      (Train m data labels nc opt).2 = m := by
  unfold Train
  by_cases hlen : data.length = labels.length
  · have hex : ∃ l ∈ labels, nc ≤ l := by
      rcases h with h | h
      · exact absurd hlen h
      · exact h
    have hany : labels.any (fun l => decide (nc ≤ l)) = true := by
      rcases hex with ⟨l, hl, hnc⟩
      exact List.any_eq_true.mpr ⟨l, hl, decide_eq_true hnc⟩
    rw [if_neg (by simp [hlen]), if_pos hany]
    exact ⟨rfl, rfl⟩
  · rw [if_pos hlen]
    exact ⟨rfl, rfl⟩

/-- Witness for C2: one sample column but an empty label row. -/
theorem train_invalid_input_witness :
    (([[(1 : ℝ)]] : List (List ℝ)).length ≠ ([] : List Nat).length ∨
        ∃ l ∈ ([] : List Nat), 2 ≤ l) ∧
      ((Train mTwoClass [[1]] [] 2 trivOpt).1 =
          Except.error TrainError.invalidInput ∧
        (Train mTwoClass [[1]] [] 2 trivOpt).2 = mTwoClass) :=
  ⟨Or.inl (by simp),
    train_invalid_input mTwoClass [[1]] [] 2 trivOpt (Or.inl (by simp))⟩

/-- Arg-max search is invariant under a strictly monotone transformation of
the values. -/
theorem argmaxAux_map (f : ℝ → ℝ) (hf : ∀ a b : ℝ, a < b ↔ f a < f b) :
    ∀ (xs : List ℝ) (i bi : Nat) (bv : ℝ),
      argmaxAux i bi (f bv) (xs.map f) = argmaxAux i bi bv xs
  | [], _, _, _ => rfl
  | x :: xs, i, bi, bv => by
    simp only [List.map_cons, argmaxAux]
    by_cases h : bv < x
    · rw [if_pos ((hf bv x).mp h), if_pos h]
      exact argmaxAux_map f hf xs (i + 1) i x
    · rw [if_neg (fun hc => h ((hf bv x).mpr hc)), if_neg h]
      exact argmaxAux_map f hf xs (i + 1) bi bv

/-- First-index arg-max is invariant under a strictly monotone
transformation. -/
theorem argmaxFirst_map (f : ℝ → ℝ) (hf : ∀ a b : ℝ, a < b ↔ f a < f b)
    (z : List ℝ) : argmaxFirst (z.map f) = argmaxFirst z := by
  cases z with
  | nil => rfl
  | cons x xs => simpa [argmaxFirst] using argmaxAux_map f hf xs 1 0 x

/-- The stabilized exponentials of a nonempty column have positive sum. -/
theorem exp_sum_pos (z : List ℝ) (hz : z ≠ []) (M : ℝ) :
    0 < (z.map (fun t => Real.exp (t - M))).sum := by
  refine List.sum_pos _ ?_ (by simpa using hz)
  intro x hx
  rcases List.mem_map.mp hx with ⟨t, _, rfl⟩
  exact Real.exp_pos _

/-- `softmaxCol` written as a single map over the score column. -/
theorem softmaxCol_eq_map (z : List ℝ) :
    softmaxCol z = z.map (fun t => Real.exp (t - listMax z) /
      (z.map (fun s => Real.exp (s - listMax z))).sum) := by
  simp [softmaxCol, List.map_map, Function.comp]

/-- The first-index arg-max of a softmax column equals that of the raw score
column: softmax is a strictly monotone transform of the scores. -/
theorem argmaxFirst_softmaxCol (z : List ℝ) :
    argmaxFirst (softmaxCol z) = argmaxFirst z := by
  cases z with
  | nil => simp [softmaxCol, argmaxFirst]
  | cons a zs =>
    have hz : (a :: zs) ≠ [] := by simp
    have hS : 0 < ((a :: zs).map
        (fun s => Real.exp (s - listMax (a :: zs)))).sum :=
      exp_sum_pos (a :: zs) hz _
    rw [softmaxCol_eq_map]
    refine argmaxFirst_map _ (fun u v => ?_) (a :: zs)
    rw [div_lt_div_iff_of_pos_right hS, Real.exp_lt_exp]
    constructor <;> intro h <;> linarith

/-- C3: for every parameter matrix and every input dataset, the label the
labels-only Classify produces for each sample equals the arg-max (lowest
index winning ties) of that sample's probability column from the
probability-producing Classify. -/
theorem classify_argmax_consistency (m : SoftmaxRegression)
    (dataset : List (List ℝ)) :
    ClassifyLabels m dataset =
      (ClassifyProbabilities m dataset).map argmaxFirst := by
  unfold ClassifyLabels ClassifyProbabilities
  rw [List.map_map]
  have hfun : argmaxFirst ∘ (fun x => softmaxCol (scores m x)) =
      fun x => argmaxFirst (scores m x) :=
    funext (fun x => argmaxFirst_softmaxCol (scores m x))
  rw [hfun]

/-- Dividing every entry of a list by `S` divides its sum by `S`. -/
theorem sum_map_div (l : List ℝ) (S : ℝ) :
    (l.map (fun v => v / S)).sum = l.sum / S := by
  induction l with
  | nil => simp
  | cons a l ih => simp [ih, add_div]

/-- A nonempty softmax column sums to exactly 1. -/
theorem softmaxCol_sum_one (z : List ℝ) (hz : z ≠ []) :
    (softmaxCol z).sum = 1 := by
  have hS := exp_sum_pos z hz (listMax z)
  simp only [softmaxCol]
  rw [sum_map_div]
  exact div_self (ne_of_gt hS)

/-- C4: every column of the probability matrix produced by the
probability-producing Classify sums to exactly 1 (the real-arithmetic ideal
of "within floating-point tolerance"), the probabilities being the
max-subtraction-stabilized softmax of the scores, provided the model has at
least one class row. -/
theorem classify_probabilities_normalized (m : SoftmaxRegression)
    (dataset : List (List ℝ)) (hrows : m.parameters ≠ []) (i : Nat)
    (hi : i < (ClassifyProbabilities m dataset).length) :
    ((ClassifyProbabilities m dataset).getD i []).sum = 1 := by
  have hlen : i < dataset.length := by
    simpa [ClassifyProbabilities] using hi
  unfold ClassifyProbabilities
  rw [getD_map _ _ _ hlen []]
  refine softmaxCol_sum_one _ ?_
  simp [scores, hrows]

/-- Witness for C4 at the concrete model `mTwoClass` and dataset `[[1]]`. -/
theorem classify_probabilities_normalized_witness :
    mTwoClass.parameters ≠ [] ∧
      0 < (ClassifyProbabilities mTwoClass [[1]]).length ∧
      ((ClassifyProbabilities mTwoClass [[1]]).getD 0 []).sum = 1 :=
  ⟨by simp [mTwoClass], by simp [ClassifyProbabilities],
    classify_probabilities_normalized mTwoClass [[1]] (by simp [mTwoClass]) 0
      (by simp [ClassifyProbabilities])⟩

end Mlpack
